import Mathlib

/-!
Verification of the StampIt repository: a shallow embedding of the
stamp-detection pipeline (`image_processing.py`), the display scaler /
hit-tester of the Tk UI (`main.py`) and the catalog layer (`db_utils.py`),
together with proofs settling the specification claims.

Python floats are modelled as exact rationals and Python `int()` of a
non-negative quotient as natural-number floor division; machine pixel
coordinates are `Nat`/`Int`.  External library primitives (OpenCV contour
measurements, `uuid` tokens, disk writes) are parameters of the embedding.
-/

namespace StampIt

/-- A detection result handed from the pipeline to the UI:
`{'path': ..., 'bbox': (x, y, w, h)}` with coordinates in the source
image's (non-negative) pixel space. -/
structure DetectedRegion where
  path : String
  x : Nat
  y : Nat
  w : Nat
  h : Nat
deriving DecidableEq, Inhabited, Repr

/-- The fit-by-width-then-clamp-by-height computation shared (textually
duplicated) by `StampScannerApp.display_image` and
`StampScannerApp.draw_stamp_rectangles`:
`new_width = label_width; new_height = int(new_width / aspect_ratio)`,
refit to height when that exceeds `label_height`, then `max 1` on both. -/
def fitWithin (imgW imgH labW labH : Nat) : Nat × Nat :=
  let newW := labW
  let newH := newW * imgH / imgW
  let p := if labH < newH then (labH * imgW / imgH, labH) else (newW, newH)
  (max 1 p.1, max 1 p.2)

/-- Scaled display size computed inside `display_image`: a degenerate label
size (`<= 1` on either axis) is replaced by the default `600 x 400`. -/
def displayScaledSize (imgW imgH labW labH : Nat) : Nat × Nat :=
  if labW ≤ 1 ∨ labH ≤ 1 then fitWithin imgW imgH 600 400
  else fitWithin imgW imgH labW labH

/-- Scaled display size computed inside `draw_stamp_rectangles`: a degenerate
label size is replaced by the size of the label's parent widget
(`self.image_label.master.winfo_width/height`), not by `600 x 400`. -/
def drawScaledSize (imgW imgH labW labH masterW masterH : Nat) : Nat × Nat :=
  if labW ≤ 1 ∨ labH ≤ 1 then fitWithin imgW imgH masterW masterH
  else fitWithin imgW imgH labW labH

/-- One entry of `self.displayed_stamp_rects_info`: the display-space box
`(scaled_x1, scaled_y1, scaled_x2, scaled_y2)` plus the originating record. -/
structure HitRect where
  x1 : Nat
  y1 : Nat
  x2 : Nat
  y2 : Nat
  region : DetectedRegion
deriving DecidableEq, Inhabited, Repr

/-- Scaling of one original-space box in `draw_stamp_rectangles`: each corner
is multiplied by `scale_x = scaled_display_width / orig_img_width` (and the
y analogue) and truncated with `int(...)`. -/
def scaleRegion (imgW imgH dW dH : Nat) (r : DetectedRegion) : HitRect :=
  { x1 := r.x * dW / imgW
    y1 := r.y * dH / imgH
    x2 := (r.x + r.w) * dW / imgW
    y2 := (r.y + r.h) * dH / imgH
    region := r }

/-- The box-mapping loop of `draw_stamp_rectangles`, building
`self.displayed_stamp_rects_info` in input order. -/
def drawStampRects (imgW imgH labW labH masterW masterH : Nat)
    (regions : List DetectedRegion) : List HitRect :=
  regions.map (scaleRegion imgW imgH
    (drawScaledSize imgW imgH labW labH masterW masterH).1
    (drawScaledSize imgW imgH labW labH masterW masterH).2)

/-- The containment test of `on_image_click`, inclusive on all four edges,
against an adjusted (possibly negative) click point. -/
def hitContains (hr : HitRect) (p : Int × Int) : Bool :=
  decide ((hr.x1 : Int) ≤ p.1) && decide (p.1 ≤ (hr.x2 : Int)) &&
  decide ((hr.y1 : Int) ≤ p.2) && decide (p.2 ≤ (hr.y2 : Int))

/-- Click resolution in `on_image_click`: subtract the centering offset
`(label - displayed) // 2` (Python floor division) per axis, then return the
first stored rectangle containing the adjusted point. -/
def onImageClick (labW labH dispW dispH : Nat) (rects : List HitRect)
    (clickX clickY : Int) : Option DetectedRegion :=
  let offX : Int := Int.fdiv ((labW : Int) - (dispW : Int)) 2
  let offY : Int := Int.fdiv ((labH : Int) - (dispH : Int)) 2
  let ax := clickX - offX
  let ay := clickY - offY
  (rects.find? (fun hr => hitContains hr (ax, ay))).map (fun hr => hr.region)

/-- The display-space center point of a stored rectangle (integer pixel at
the floor of the exact center). -/
def centerPt (hr : HitRect) : Int × Int :=
  (((hr.x1 + hr.x2) / 2 : Nat), ((hr.y1 + hr.y2) / 2 : Nat))

/-- Round trip: map all regions through `draw_stamp_rectangles`, take the
`i`-th stored rectangle, click at the viewport pixel at the center of that
rectangle as displayed (center plus the centering offset of the image the
label shows, whose size `display_image` computed), and resolve the click. -/
def roundTripCenterClick (imgW imgH labW labH masterW masterH : Nat)
    (regions : List DetectedRegion) (i : Nat) : Option DetectedRegion :=
  onImageClick labW labH
    (displayScaledSize imgW imgH labW labH).1
    (displayScaledSize imgW imgH labW labH).2
    (drawStampRects imgW imgH labW labH masterW masterH regions)
    ((centerPt ((drawStampRects imgW imgH labW labH masterW masterH regions).getD i default)).1
      + Int.fdiv ((labW : Int) - ((displayScaledSize imgW imgH labW labH).1 : Int)) 2)
    ((centerPt ((drawStampRects imgW imgH labW labH masterW masterH regions).getD i default)).2
      + Int.fdiv ((labH : Int) - ((displayScaledSize imgW imgH labW labH).2 : Int)) 2)

/-! ## Detection pipeline (`image_processing.py`) -/

/-- A raw OpenCV contour: the ordered list of its integer pixel vertices. -/
abbrev RawContour := List (Int × Int)

/-- The OpenCV measurement primitives used by `detect_and_segment_stamps`
(`cv2.contourArea`, `cv2.arcLength`, `cv2.approxPolyDP`).  They are external
library code, so the embedding takes them as parameters; `cv2.boundingRect`
has simple known semantics and is defined concretely below. -/
structure CV where
  contourArea : RawContour → ℚ
  arcLength : RawContour → ℚ
  approxPolyDP : RawContour → ℚ → RawContour

/-- `MIN_CONTOUR_AREA = 1000`. -/
def MIN_CONTOUR_AREA : ℚ := 1000

/-- `MAX_CONTOUR_AREA = 50000`. -/
def MAX_CONTOUR_AREA : ℚ := 50000

/-- `ASPECT_RATIO_MIN = 0.5`. -/
def ASPECT_RATIO_MIN : ℚ := 1 / 2

/-- `ASPECT_RATIO_MAX = 2.0`. -/
def ASPECT_RATIO_MAX : ℚ := 2

/-- An axis-aligned bounding box `(x, y, w, h)` as returned by
`cv2.boundingRect`. -/
structure Rect where
  x : Int
  y : Int
  w : Int
  h : Int
deriving DecidableEq, Inhabited, Repr

/-- `cv2.boundingRect` on a polygon with integer vertices: upright rectangle
from the componentwise minima to the maxima, with `w = maxx - minx + 1` and
`h = maxy - miny + 1`. -/
def boundingRect : RawContour → Rect
  | [] => ⟨0, 0, 0, 0⟩
  | q :: ps =>
    ⟨ps.foldl (fun a r => min a r.1) q.1,
     ps.foldl (fun a r => min a r.2) q.2,
     ps.foldl (fun a r => max a r.1) q.1 - ps.foldl (fun a r => min a r.1) q.1 + 1,
     ps.foldl (fun a r => max a r.2) q.2 - ps.foldl (fun a r => min a r.2) q.2 + 1⟩

/-- The simplified polygon of a contour:
`cv2.approxPolyDP(contour, 0.02 * cv2.arcLength(contour, True), True)`. -/
def approxOf (cv : CV) (c : RawContour) : RawContour :=
  cv.approxPolyDP c (2 / 100 * cv.arcLength c)

/-- The contour filter of `detect_and_segment_stamps`, short-circuiting in
source order: strict area band, then exactly 4 simplified vertices, then the
inclusive aspect-ratio band on the simplified polygon's bounding rectangle.
Returns the accepted candidate's bounding box verbatim, or `none`. -/
def candidateBBox (cv : CV) (c : RawContour) : Option Rect :=
  if MIN_CONTOUR_AREA < cv.contourArea c ∧ cv.contourArea c < MAX_CONTOUR_AREA then
    if (approxOf cv c).length = 4 then
      if ASPECT_RATIO_MIN ≤ ((boundingRect (approxOf cv c)).w : ℚ) /
            ((boundingRect (approxOf cv c)).h : ℚ) ∧
          ((boundingRect (approxOf cv c)).w : ℚ) /
            ((boundingRect (approxOf cv c)).h : ℚ) ≤ ASPECT_RATIO_MAX then
        some (boundingRect (approxOf cv c))
      else none
    else none
  else none

/-- One record of the pipeline result list:
`{'path': str(stamp_save_path), 'bbox': (x, y, w, h)}`. -/
structure StampRegion where
  path : String
  x : Int
  y : Int
  w : Int
  h : Int
deriving DecidableEq, Inhabited, Repr

/-- The fixed output directory `DETECTED_STAMPS_DIR` as a path prefix. -/
def DETECTED_STAMPS_DIR : String := "stamp_app/data/detected_stamps/"

/-- The save path of one crop:
`DETECTED_STAMPS_DIR / f"{original_filename_stem}_stamp_{uuid.uuid4().hex[:8]}.png"`. -/
def savePath (stem tok : String) : String :=
  DETECTED_STAMPS_DIR ++ stem ++ "_stamp_" ++ tok ++ ".png"

/-- The contour loop of `detect_and_segment_stamps`.  `tokens` supplies the
fresh `uuid` token drawn for the `k`-th accepted candidate; `writeOk` tells
whether `cv2.imwrite` succeeds at a given path.  A candidate whose write
fails is skipped (the exception is caught and only a warning is printed) and
the loop continues with the remaining contours. -/
def detectLoop (cv : CV) (writeOk : String → Bool) (stem : String)
    (tokens : Nat → String) : List RawContour → Nat → List StampRegion
  | [], _ => []
  | c :: rest, k =>
    match candidateBBox cv c with
    | none => detectLoop cv writeOk stem tokens rest k
    | some r =>
      if writeOk (savePath stem (tokens k)) then
        { path := savePath stem (tokens k), x := r.x, y := r.y, w := r.w, h := r.h } ::
          detectLoop cv writeOk stem tokens rest (k + 1)
      else detectLoop cv writeOk stem tokens rest (k + 1)

/-- `detect_and_segment_stamps`, starting from the first fresh token. -/
def detect_and_segment_stamps (cv : CV) (writeOk : String → Bool) (stem : String)
    (tokens : Nat → String) (contours : List RawContour) : List StampRegion :=
  detectLoop cv writeOk stem tokens contours 0

/-- Number of contours a run accepts (and hence of uuid tokens it draws). -/
def acceptedCount (cv : CV) : List RawContour → Nat
  | [] => 0
  | c :: rest =>
    (if (candidateBBox cv c).isSome then 1 else 0) + acceptedCount cv rest

/-! ## Catalog layer (`db_utils.py`) -/

/-- A Python value as stored in / returned from the record dictionaries
(lists carry strings, the only element shape this application produces). -/
inductive PyVal where
  | none
  | str (s : String)
  | int (n : Int)
  | list (xs : List String)
deriving DecidableEq, Repr

/-- Whether a Python value is a list. -/
def PyVal.isPyList : PyVal → Bool
  | .list _ => true
  | _ => false

/-- The value of the `source_urls` key of the input dictionary of
`add_stamp_record`: either a Python list of strings (JSON-encoded before
insertion) or an already-encoded plain string (stored verbatim). -/
inductive UrlsInput where
  | list (xs : List String)
  | str (s : String)
deriving DecidableEq, Repr

/-- `json.dumps` on a list of strings without quotes or escapes (the fragment
the application produces): `["a", "b"]` with `", "` separators. -/
def json_dumps_strings (xs : List String) : String :=
  "[" ++ String.intercalate ", " (xs.map (fun s => "\"" ++ s ++ "\"")) ++ "]"

/-- The TEXT stored for `source_urls`: lists are JSON encoded
(`json.dumps`), strings pass through unchanged. -/
def urlsAsText : UrlsInput → String
  | .list xs => json_dumps_strings xs
  | .str s => s

/-- A quoted JSON string literal without escapes or inner quotes. -/
def parseQuoted (t : String) : Option String :=
  match t.data with
  | [] => Option.none
  | c :: rest =>
    if c = '"' ∧ rest.getLast? = some '"' ∧
        rest.dropLast.all (fun d => d ≠ '"' ∧ d ≠ '\\') then
      Option.some (String.mk rest.dropLast)
    else Option.none

/-- `json.loads`, modelled on the fragment of JSON this application stores
and reads back: integer literals and arrays of escape-free string literals
(exactly what `json_dumps_strings` emits).  Any other text fails to parse,
as the invalid-JSON texts exercised here do under the real library. -/
def json_loads (s : String) : Option PyVal :=
  if s.data ≠ [] ∧ s.data.all Char.isDigit ∧ (s.data.head? = some '0' → s = "0") then
    Option.some (.int (s.data.foldl (fun a c => a * 10 + ((c.toNat : Int) - 48)) 0))
  else
    match s.data with
    | '[' :: rest =>
      if rest.getLast? = some ']' then
        if String.mk rest.dropLast = "" then Option.some (.list [])
        else
          match (String.mk rest.dropLast |>.splitOn ", ").mapM parseQuoted with
          | Option.some xs => Option.some (.list xs)
          | Option.none => Option.none
      else Option.none
    | _ => Option.none

/-- A row of the `stamps` table created by `initialize_database`:
`detected_stamp_image_path` is `UNIQUE NOT NULL`, all other columns nullable
TEXT, plus the AUTOINCREMENT integer key (the timestamp column plays no role
in any claim and is omitted). -/
structure StampRow where
  id : Nat
  original_image_ref : Option String
  detected_stamp_image_path : String
  search_keywords : Option String
  country : Option String
  title_suggestion : Option String
  estimated_price_range : Option String
  history_notes : Option String
  source_urls : Option String
deriving DecidableEq, Inhabited, Repr

/-- The catalog state: the rows of the `stamps` table in insertion order and
the next AUTOINCREMENT id. -/
structure StampsDB where
  rows : List StampRow
  nextId : Nat
deriving DecidableEq, Repr

/-- The input dictionary of `add_stamp_record`: a field is `none` when the
corresponding key is absent from the dictionary. -/
structure StampData where
  original_image_ref : Option String := Option.none
  detected_stamp_image_path : Option String := Option.none
  search_keywords : Option String := Option.none
  country : Option String := Option.none
  title_suggestion : Option String := Option.none
  estimated_price_range : Option String := Option.none
  history_notes : Option String := Option.none
  source_urls : Option UrlsInput := Option.none
deriving DecidableEq, Repr

/-- `add_stamp_record`: returns `None` without touching the table when the
`detected_stamp_image_path` key is missing; inserting a duplicate path
violates the UNIQUE constraint, so sqlite raises `IntegrityError`, the
function returns `None` and the table is unchanged; otherwise the row is
inserted and its fresh id returned. -/
def add_stamp_record (db : StampsDB) (d : StampData) : Option Nat × StampsDB :=
  match d.detected_stamp_image_path with
  | Option.none => (Option.none, db)
  | Option.some p =>
    if db.rows.any (fun r => r.detected_stamp_image_path == p) then
      (Option.none, db)
    else
      (Option.some db.nextId,
        { rows := db.rows ++
            [{ id := db.nextId
               original_image_ref := d.original_image_ref
               detected_stamp_image_path := p
               search_keywords := d.search_keywords
               country := d.country
               title_suggestion := d.title_suggestion
               estimated_price_range := d.estimated_price_range
               history_notes := d.history_notes
               source_urls := d.source_urls.map urlsAsText }]
          nextId := db.nextId + 1 })

/-- The dictionary `get_stamp_by_image_path` returns: the row's columns,
with `source_urls` post-processed into a Python value. -/
structure RetrievedStamp where
  id : Nat
  original_image_ref : Option String
  detected_stamp_image_path : String
  search_keywords : Option String
  country : Option String
  title_suggestion : Option String
  estimated_price_range : Option String
  history_notes : Option String
  source_urls : PyVal
deriving DecidableEq, Repr

/-- `get_stamp_by_image_path`: fetch the row with the given path; when its
`source_urls` text is truthy (non-NULL and non-empty), replace it by
`json.loads` of the text, or by the empty list when parsing raises. -/
def get_stamp_by_image_path (db : StampsDB) (image_path : String) :
    Option RetrievedStamp :=
  match db.rows.find? (fun r => r.detected_stamp_image_path == image_path) with
  | Option.none => Option.none
  | Option.some r =>
    Option.some
      { id := r.id
        original_image_ref := r.original_image_ref
        detected_stamp_image_path := r.detected_stamp_image_path
        search_keywords := r.search_keywords
        country := r.country
        title_suggestion := r.title_suggestion
        estimated_price_range := r.estimated_price_range
        history_notes := r.history_notes
        source_urls :=
          match r.source_urls with
          | Option.none => PyVal.none
          | Option.some t =>
            if t = "" then PyVal.str t
            else
              match json_loads t with
              | Option.some v => v
              | Option.none => PyVal.list [] }

/-- A concrete instantiation of the OpenCV primitives, used to exercise the
pipeline on closed inputs: a contour measures 2000 area units, 400 perimeter
units, and polygon simplification returns the contour unchanged. -/
def cvEx : CV :=
  { contourArea := fun _ => 2000
    arcLength := fun _ => 400
    approxPolyDP := fun c _ => c }

/-- A concrete injective token supply for closed instantiations. -/
def tokEx (n : Nat) : String :=
  String.mk (List.replicate n 'a')

/-- A concrete axis-aligned square contour. -/
def squareContour : RawContour :=
  [(5, 5), (25, 5), (25, 25), (5, 25)]

/-- A concrete catalog row for closed instantiations. -/
def rowEx : StampRow :=
  ⟨1, Option.none, "p", Option.none, Option.none, Option.none, Option.none,
    Option.none, Option.none⟩

/-- A concrete catalog state holding `rowEx`. -/
def dbEx : StampsDB := ⟨[rowEx], 2⟩

/-- A concrete catalog row whose `source_urls` text is not valid JSON. -/
def rowJ : StampRow :=
  ⟨2, Option.none, "r", Option.none, Option.none, Option.none, Option.none,
    Option.none, some "notjson"⟩

/-- A concrete catalog state holding `rowJ`. -/
def dbJ : StampsDB := ⟨[rowJ], 3⟩

theorem scaledSize_agree (imgW imgH labW labH masterW masterH : Nat)
    (hlW : 2 ≤ labW) (hlH : 2 ≤ labH) :
    displayScaledSize imgW imgH labW labH =
      drawScaledSize imgW imgH labW labH masterW masterH := by
  have h : ¬ (labW ≤ 1 ∨ labH ≤ 1) := by omega
  simp [displayScaledSize, drawScaledSize, h]

/-- Claim C1 (amended): whenever the viewport label reports a non-degenerate
size (at least 2 pixels on each axis), the scaled display width and height
computed inside `display_image` equal those computed inside
`draw_stamp_rectangles`, for every image size and every parent-widget size.
In the degenerate case the two methods substitute different fallbacks
(600 x 400 versus the parent widget's size) and need not agree. -/
theorem scaled_size_agree_nondegenerate (imgW imgH labW labH masterW masterH : Nat)
    (hW : 1 ≤ imgW) (hH : 1 ≤ imgH) (hlW : 2 ≤ labW) (hlH : 2 ≤ labH) :
    displayScaledSize imgW imgH labW labH =
      drawScaledSize imgW imgH labW labH masterW masterH :=
  scaledSize_agree imgW imgH labW labH masterW masterH hlW hlH

theorem scaled_size_agree_nondegenerate_witness :
    1 ≤ 300 ∧ 1 ≤ 200 ∧ 2 ≤ 640 ∧ 2 ≤ 480 ∧
      displayScaledSize 300 200 640 480 = drawScaledSize 300 200 640 480 800 600 :=
  ⟨by decide, by decide, by decide, by decide,
    scaled_size_agree_nondegenerate 300 200 640 480 800 600
      (by decide) (by decide) (by decide) (by decide)⟩

/-- Claim C1, counterexample to the claim as stated: when the label reports
the degenerate size 1 x 1, `display_image` substitutes 600 x 400 and scales a
100 x 100 image to 400 x 400, while `draw_stamp_rectangles` substitutes the
parent widget's 800 x 600 and scales it to 600 x 600. -/
theorem scaled_size_mismatch_degenerate :
    displayScaledSize 100 100 1 1 ≠ drawScaledSize 100 100 1 1 800 600 := by
  decide

theorem onImageClick_shifted (labW labH dispW dispH : Nat) (rects : List HitRect)
    (c : Int × Int) :
    onImageClick labW labH dispW dispH rects
        (c.1 + Int.fdiv ((labW : Int) - (dispW : Int)) 2)
        (c.2 + Int.fdiv ((labH : Int) - (dispH : Int)) 2) =
      (rects.find? (fun hr => hitContains hr c)).map (fun hr => hr.region) := by
  simp [onImageClick, add_sub_cancel_right]

theorem find?_eq_of_getD {α : Type} (p : α → Bool) (l : List α) (i : Nat) (d : α)
    (hi : i < l.length) (hpi : p (l.getD i d) = true)
    (hprev : ∀ a ∈ l.take i, p a = false) :
    l.find? p = some (l.getD i d) := by
  induction l generalizing i with
  | nil => simp at hi
  | cons x xs ih =>
    cases i with
    | zero =>
      simp only [List.getD_cons_zero] at hpi ⊢
      exact List.find?_cons_of_pos _ hpi
    | succ n =>
      have hx : p x = false := hprev x (by simp [List.take_succ_cons])
      have hn : n < xs.length := by simpa using hi
      simp only [List.getD_cons_succ]
      rw [List.find?_cons_of_neg _ (by simp [hx])]
      exact ih n hn (by simpa using hpi)
        (fun a ha => hprev a (by simp [List.take_succ_cons, ha]))

theorem center_in_own_box (imgW imgH dW dH : Nat) (r : DetectedRegion) :
    hitContains (scaleRegion imgW imgH dW dH r)
      (centerPt (scaleRegion imgW imgH dW dH r)) = true := by
  have hx : r.x * dW / imgW ≤ (r.x + r.w) * dW / imgW :=
    Nat.div_le_div_right (Nat.mul_le_mul_right _ (Nat.le_add_right _ _))
  have hy : r.y * dH / imgH ≤ (r.y + r.h) * dH / imgH :=
    Nat.div_le_div_right (Nat.mul_le_mul_right _ (Nat.le_add_right _ _))
  simp only [hitContains, centerPt, scaleRegion, Bool.and_eq_true, decide_eq_true_eq]
  omega

/-- Claim C2 (amended): for any viewport of at least 50 x 50, clicking the
exact center of the `i`-th mapped box resolves to the first stored rectangle
whose box contains that center; hence it returns the `i`-th DetectedRegion
itself whenever no earlier region's mapped box also contains the center.
With overlapping mapped boxes the earliest match wins, which can differ from
the clicked region. -/
theorem roundtrip_center_click_first_match
    (imgW imgH labW labH masterW masterH : Nat)
    (regions : List DetectedRegion) (i : Nat)
    (hW : 1 ≤ imgW) (hH : 1 ≤ imgH) (hlW : 50 ≤ labW) (hlH : 50 ≤ labH)
    (hi : i < regions.length)
    (hfirst : ∀ hr' ∈ (drawStampRects imgW imgH labW labH masterW masterH regions).take i,
        hitContains hr'
          (centerPt ((drawStampRects imgW imgH labW labH masterW masterH regions).getD i
            default)) = false) :
    roundTripCenterClick imgW imgH labW labH masterW masterH regions i =
      some (regions.get ⟨i, hi⟩) := by
  have hlen : i < (drawStampRects imgW imgH labW labH masterW masterH regions).length := by
    simpa [drawStampRects] using hi
  have hgd : (drawStampRects imgW imgH labW labH masterW masterH regions).getD i default =
      scaleRegion imgW imgH
        (drawScaledSize imgW imgH labW labH masterW masterH).1
        (drawScaledSize imgW imgH labW labH masterW masterH).2
        (regions.get ⟨i, hi⟩) := by
    rw [List.getD_eq_getElem _ _ hlen]
    simp [drawStampRects]
  rw [roundTripCenterClick, onImageClick_shifted]
  rw [find?_eq_of_getD _ _ i default hlen _ hfirst]
  · rw [hgd]
    simp [scaleRegion]
  · rw [hgd]
    exact center_in_own_box _ _ _ _ _

theorem roundtrip_center_click_first_match_witness :
    1 ≤ 100 ∧ 50 ≤ 120 ∧ 0 < ([⟨"a", 5, 5, 20, 20⟩] : List DetectedRegion).length ∧
    roundTripCenterClick 100 100 120 120 800 600 [⟨"a", 5, 5, 20, 20⟩] 0 =
      some (([⟨"a", 5, 5, 20, 20⟩] : List DetectedRegion).get ⟨0, by decide⟩) :=
  ⟨by decide, by decide, by decide,
    roundtrip_center_click_first_match 100 100 120 120 800 600
      [⟨"a", 5, 5, 20, 20⟩] 0 (by decide) (by decide) (by decide) (by decide)
      (by decide) (by intro hr' h; simp at h)⟩

/-- Claim C2, counterexample to the claim as stated: two DetectedRegions with
identical bounding boxes; clicking the center of the second one's mapped box
resolves (first match wins) to the first region, not the clicked one. -/
theorem roundtrip_overlap_counterexample :
    roundTripCenterClick 100 100 100 100 800 600
        [⟨"a", 0, 0, 10, 10⟩, ⟨"b", 0, 0, 10, 10⟩] 1 =
      some ⟨"a", 0, 0, 10, 10⟩ ∧
    (⟨"a", 0, 0, 10, 10⟩ : DetectedRegion) ≠ ⟨"b", 0, 0, 10, 10⟩ := by
  constructor
  · decide
  · decide

/-- Claim C3: a contour is accepted, carrying its simplified polygon's
bounding rectangle verbatim, exactly when its area lies strictly between
1000 and 50000, the polygon simplified with tolerance 0.02 times its
perimeter has exactly 4 vertices, and the bounding rectangle's aspect ratio
w/h lies inclusively between 1/2 and 2; failing conditions reject
(short-circuiting in that order), and areas exactly 1000 or 50000 reject. -/
theorem candidate_filter_characterization (cv : CV) (c : RawContour) :
    candidateBBox cv c =
      if (1000 < cv.contourArea c ∧ cv.contourArea c < 50000) ∧
          (approxOf cv c).length = 4 ∧
          ((1 : ℚ) / 2 ≤ ((boundingRect (approxOf cv c)).w : ℚ) /
              ((boundingRect (approxOf cv c)).h : ℚ) ∧
            ((boundingRect (approxOf cv c)).w : ℚ) /
              ((boundingRect (approxOf cv c)).h : ℚ) ≤ 2) then
        some (boundingRect (approxOf cv c))
      else none := by
  unfold candidateBBox MIN_CONTOUR_AREA MAX_CONTOUR_AREA ASPECT_RATIO_MIN ASPECT_RATIO_MAX
  split_ifs <;> first | rfl | tauto

theorem foldl_min_le_init (l : List (Int × Int)) (f : Int × Int → Int) (a : Int) :
    l.foldl (fun x r => min x (f r)) a ≤ a := by
  induction l generalizing a with
  | nil => exact le_refl a
  | cons p ps ih => exact le_trans (ih (min a (f p))) (min_le_left _ _)

theorem init_le_foldl_max (l : List (Int × Int)) (f : Int × Int → Int) (a : Int) :
    a ≤ l.foldl (fun x r => max x (f r)) a := by
  induction l generalizing a with
  | nil => exact le_refl a
  | cons p ps ih => exact le_trans (le_max_left _ _) (ih (max a (f p)))

theorem le_foldl_min (l : List (Int × Int)) (f : Int × Int → Int) (a b : Int)
    (hb : b ≤ a) (h : ∀ p ∈ l, b ≤ f p) :
    b ≤ l.foldl (fun x r => min x (f r)) a := by
  induction l generalizing a with
  | nil => exact hb
  | cons p ps ih =>
    exact ih (min a (f p)) (le_min hb (h p (List.mem_cons_self p ps)))
      (fun q hq => h q (List.mem_cons_of_mem p hq))

theorem foldl_max_le (l : List (Int × Int)) (f : Int × Int → Int) (a b : Int)
    (hb : a ≤ b) (h : ∀ p ∈ l, f p ≤ b) :
    l.foldl (fun x r => max x (f r)) a ≤ b := by
  induction l generalizing a with
  | nil => exact hb
  | cons p ps ih =>
    exact ih (max a (f p)) (max_le hb (h p (List.mem_cons_self p ps)))
      (fun q hq => h q (List.mem_cons_of_mem p hq))

theorem boundingRect_pos (q : Int × Int) (ps : List (Int × Int)) :
    1 ≤ (boundingRect (q :: ps)).w ∧ 1 ≤ (boundingRect (q :: ps)).h := by
  have h1 := foldl_min_le_init ps Prod.fst q.1
  have h2 := init_le_foldl_max ps Prod.fst q.1
  have h3 := foldl_min_le_init ps Prod.snd q.2
  have h4 := init_le_foldl_max ps Prod.snd q.2
  simp only [boundingRect]
  omega

/-- Claim C6: any contour reaching the aspect-ratio step (its simplified
polygon has the required 4 vertices, hence is non-empty) has a bounding
rectangle of width and height at least 1, so `float(w) / h` never divides by
zero and no zero-width or zero-height box can arise there at all. -/
theorem aspect_denominator_positive (cv : CV) (c : RawContour)
    (h4 : (approxOf cv c).length = 4) :
    1 ≤ (boundingRect (approxOf cv c)).w ∧ 1 ≤ (boundingRect (approxOf cv c)).h := by
  cases happ : approxOf cv c with
  | nil => rw [happ] at h4; simp at h4
  | cons q ps => exact boundingRect_pos q ps

theorem aspect_denominator_positive_witness :
    (approxOf cvEx squareContour).length = 4 ∧
    1 ≤ (boundingRect (approxOf cvEx squareContour)).w ∧
    1 ≤ (boundingRect (approxOf cvEx squareContour)).h :=
  ⟨by decide, aspect_denominator_positive cvEx squareContour (by decide)⟩

theorem detectLoop_writeOk_filter (cv : CV) (writeOk : String → Bool)
    (stem : String) (tokens : Nat → String) (cs : List RawContour) :
    ∀ k : Nat, detectLoop cv writeOk stem tokens cs k =
      (detectLoop cv (fun _ => true) stem tokens cs k).filter
        (fun r => writeOk r.path) := by
  induction cs with
  | nil => intro k; rfl
  | cons c rest ih =>
    intro k
    simp only [detectLoop]
    cases hbb : candidateBBox cv c with
    | none => simpa using ih k
    | some r =>
      by_cases hw : writeOk (savePath stem (tokens k)) <;>
        simp [hw, List.filter_cons, ih (k + 1)]

/-- Claim C4: under any pattern of per-candidate write failures, the
pipeline neither aborts nor retries: its result is exactly the all-writes-
succeed result restricted, in order, to the candidates whose write
succeeded (the failure itself is only reported by a printed warning, which
has no observable effect on the result). -/
theorem export_partial_failure_filter (cv : CV) (writeOk : String → Bool)
    (stem : String) (tokens : Nat → String) (contours : List RawContour) :
    detect_and_segment_stamps cv writeOk stem tokens contours =
      (detect_and_segment_stamps cv (fun _ => true) stem tokens contours).filter
        (fun r => writeOk r.path) :=
  detectLoop_writeOk_filter cv writeOk stem tokens contours 0

theorem detectLoop_mem_bbox (cv : CV) (writeOk : String → Bool) (stem : String)
    (tokens : Nat → String) (cs : List RawContour) :
    ∀ (k : Nat) (r : StampRegion), r ∈ detectLoop cv writeOk stem tokens cs k →
      ∃ c ∈ cs, candidateBBox cv c = some ⟨r.x, r.y, r.w, r.h⟩ := by
  induction cs with
  | nil => intro k r hr; simp [detectLoop] at hr
  | cons c rest ih =>
    intro k r hr
    simp only [detectLoop] at hr
    cases hbb : candidateBBox cv c with
    | none =>
      simp only [hbb] at hr
      obtain ⟨c', hc', hbb'⟩ := ih k r hr
      exact ⟨c', List.mem_cons_of_mem c hc', hbb'⟩
    | some rect =>
      simp only [hbb] at hr
      by_cases hw : writeOk (savePath stem (tokens k))
      · rw [if_pos hw] at hr
        rcases List.mem_cons.mp hr with h | h
        · refine ⟨c, List.mem_cons_self c rest, ?_⟩
          rw [hbb, h]
        · obtain ⟨c', hc', hbb'⟩ := ih (k + 1) r h
          exact ⟨c', List.mem_cons_of_mem c hc', hbb'⟩
      · rw [if_neg hw] at hr
        obtain ⟨c', hc', hbb'⟩ := ih (k + 1) r hr
        exact ⟨c', List.mem_cons_of_mem c hc', hbb'⟩

theorem candidateBBox_some (cv : CV) (c : RawContour) (r : Rect)
    (h : candidateBBox cv c = some r) :
    r = boundingRect (approxOf cv c) ∧ (approxOf cv c).length = 4 := by
  unfold candidateBBox at h
  split_ifs at h with h1 h2 h3
  · exact ⟨(Option.some.injEq _ _ ▸ h).symm, h2⟩

theorem boundingRect_within (q : Int × Int) (ps : List (Int × Int)) (W H : Int)
    (hin : ∀ p ∈ q :: ps, 0 ≤ p.1 ∧ p.1 < W ∧ 0 ≤ p.2 ∧ p.2 < H) :
    0 ≤ (boundingRect (q :: ps)).x ∧ 0 ≤ (boundingRect (q :: ps)).y ∧
    (boundingRect (q :: ps)).x + (boundingRect (q :: ps)).w ≤ W ∧
    (boundingRect (q :: ps)).y + (boundingRect (q :: ps)).h ≤ H := by
  have hq := hin q (List.mem_cons_self q ps)
  have h1 : (0 : Int) ≤ ps.foldl (fun x r => min x (Prod.fst r)) q.1 :=
    le_foldl_min ps Prod.fst q.1 0 hq.1
      (fun p hp => (hin p (List.mem_cons_of_mem q hp)).1)
  have h2 : ps.foldl (fun x r => max x (Prod.fst r)) q.1 ≤ W - 1 :=
    foldl_max_le ps Prod.fst q.1 (W - 1) (by omega)
      (fun p hp => by have := hin p (List.mem_cons_of_mem q hp); omega)
  have h3 : (0 : Int) ≤ ps.foldl (fun x r => min x (Prod.snd r)) q.2 :=
    le_foldl_min ps Prod.snd q.2 0 hq.2.2.1
      (fun p hp => (hin p (List.mem_cons_of_mem q hp)).2.2.1)
  have h4 : ps.foldl (fun x r => max x (Prod.snd r)) q.2 ≤ H - 1 :=
    foldl_max_le ps Prod.snd q.2 (H - 1) (by omega)
      (fun p hp => by have := hin p (List.mem_cons_of_mem q hp); omega)
  simp only [boundingRect]
  omega

/-- Claim C5: assuming the OpenCV contour machinery yields simplified
polygons whose vertices lie inside the image (as `cv2.findContours` and
`cv2.approxPolyDP`, which only selects a subset of contour pixels, do),
every record returned by `detect_and_segment_stamps` has a bounding box
fully inside the image bounds with strictly positive width and height. -/
theorem detected_regions_within_bounds (cv : CV) (writeOk : String → Bool)
    (stem : String) (tokens : Nat → String) (contours : List RawContour)
    (W H : Int)
    (hin : ∀ c ∈ contours, ∀ p ∈ approxOf cv c,
      0 ≤ p.1 ∧ p.1 < W ∧ 0 ≤ p.2 ∧ p.2 < H) :
    ∀ r ∈ detect_and_segment_stamps cv writeOk stem tokens contours,
      0 ≤ r.x ∧ 0 ≤ r.y ∧ r.x + r.w ≤ W ∧ r.y + r.h ≤ H ∧ 0 < r.w ∧ 0 < r.h := by
  intro r hr
  obtain ⟨c, hc, hbb⟩ :=
    detectLoop_mem_bbox cv writeOk stem tokens contours 0 r hr
  obtain ⟨hrect, h4⟩ := candidateBBox_some cv c ⟨r.x, r.y, r.w, r.h⟩ hbb
  cases happ : approxOf cv c with
  | nil => rw [happ] at h4; simp at h4
  | cons q ps =>
    rw [happ] at hrect
    have hwithin := boundingRect_within q ps W H
      (fun p hp => hin c hc p (by rw [happ]; exact hp))
    have hpos := boundingRect_pos q ps
    rw [← hrect] at hwithin hpos
    simp only at hwithin hpos
    exact ⟨hwithin.1, hwithin.2.1, hwithin.2.2.1, hwithin.2.2.2, by omega, by omega⟩

theorem detected_regions_within_bounds_witness :
    (∀ c ∈ [squareContour], ∀ p ∈ approxOf cvEx c,
      0 ≤ p.1 ∧ p.1 < 100 ∧ 0 ≤ p.2 ∧ p.2 < 100) ∧
    (∀ r ∈ detect_and_segment_stamps cvEx (fun _ => true) "sheet" tokEx
        [squareContour],
      0 ≤ r.x ∧ 0 ≤ r.y ∧ r.x + r.w ≤ 100 ∧ r.y + r.h ≤ 100 ∧
        0 < r.w ∧ 0 < r.h) :=
  ⟨by decide,
    detected_regions_within_bounds cvEx (fun _ => true) "sheet" tokEx
      [squareContour] 100 100 (by decide)⟩

theorem string_append_data (a b : String) : (a ++ b).data = a.data ++ b.data :=
  rfl

theorem savePath_injective (stem t1 t2 : String)
    (h : savePath stem t1 = savePath stem t2) : t1 = t2 := by
  have hd := congrArg String.data h
  simp only [savePath, string_append_data, List.append_assoc] at hd
  have h1 := List.append_cancel_left hd
  have h2 := List.append_cancel_left h1
  have h3 := List.append_cancel_left h2
  exact String.ext (List.append_cancel_right h3)

theorem detectLoop_path_is_token (cv : CV) (writeOk : String → Bool)
    (stem : String) (tokens : Nat → String) (cs : List RawContour) :
    ∀ (k : Nat) (r : StampRegion), r ∈ detectLoop cv writeOk stem tokens cs k →
      ∃ j, k ≤ j ∧ j < k + acceptedCount cv cs ∧
        r.path = savePath stem (tokens j) := by
  induction cs with
  | nil => intro k r hr; simp [detectLoop] at hr
  | cons c rest ih =>
    intro k r hr
    simp only [detectLoop] at hr
    cases hbb : candidateBBox cv c with
    | none =>
      simp only [hbb] at hr
      have hac : acceptedCount cv (c :: rest) = acceptedCount cv rest := by
        simp [acceptedCount, hbb]
      obtain ⟨j, h1, h2, h3⟩ := ih k r hr
      exact ⟨j, h1, by rw [hac]; exact h2, h3⟩
    | some rect =>
      simp only [hbb] at hr
      have hac : acceptedCount cv (c :: rest) = 1 + acceptedCount cv rest := by
        simp [acceptedCount, hbb]
      by_cases hw : writeOk (savePath stem (tokens k))
      · rw [if_pos hw] at hr
        rcases List.mem_cons.mp hr with h | h
        · exact ⟨k, le_refl k, by rw [hac]; omega, by rw [h]⟩
        · obtain ⟨j, h1, h2, h3⟩ := ih (k + 1) r h
          exact ⟨j, by omega, by rw [hac]; omega, h3⟩
      · rw [if_neg hw] at hr
        obtain ⟨j, h1, h2, h3⟩ := ih (k + 1) r hr
        exact ⟨j, by omega, by rw [hac]; omega, h3⟩

theorem detectLoop_paths_nodup (cv : CV) (writeOk : String → Bool)
    (stem : String) (tokens : Nat → String)
    (hinj : Function.Injective tokens) (cs : List RawContour) :
    ∀ k : Nat, ((detectLoop cv writeOk stem tokens cs k).map
      (fun r => r.path)).Nodup := by
  induction cs with
  | nil => intro k; simp [detectLoop]
  | cons c rest ih =>
    intro k
    simp only [detectLoop]
    cases hbb : candidateBBox cv c with
    | none => exact ih k
    | some rect =>
      by_cases hw : writeOk (savePath stem (tokens k))
      · simp only [hw, if_true, List.map_cons, List.nodup_cons]
        refine ⟨fun hmem => ?_, ih (k + 1)⟩
        obtain ⟨r, hr, hpath⟩ := List.mem_map.mp hmem
        obtain ⟨j, hj1, hj2, hj3⟩ :=
          detectLoop_path_is_token cv writeOk stem tokens rest (k + 1) r hr
        have heq : tokens k = tokens j :=
          savePath_injective stem _ _ (by rw [← hj3, hpath])
        have := hinj heq
        omega
      · simp only [hw, if_false]
        exact ih (k + 1)

theorem detectLoop_length_allOk (cv : CV) (stem : String)
    (tokens : Nat → String) (cs : List RawContour) :
    ∀ k : Nat, (detectLoop cv (fun _ => true) stem tokens cs k).length =
      acceptedCount cv cs := by
  induction cs with
  | nil => intro k; rfl
  | cons c rest ih =>
    intro k
    simp only [detectLoop, acceptedCount]
    cases hbb : candidateBBox cv c with
    | none => simpa using ih k
    | some rect =>
      simp only [Option.isSome_some, if_true, List.length_cons, ih (k + 1)]
      omega

/-- Claim C7: modelling the freshness of `uuid.uuid4().hex[:8]` as an
injective token stream consumed once per accepted candidate (the second
invocation continues after the tokens the first drew), every exported path
is the source stem plus a fresh token plus `.png`, the paths of two
successive invocations on the same source image are pairwise distinct, and
an all-writes-succeed run returns exactly one record per accepted
candidate. -/
theorem storage_paths_distinct (cv : CV) (writeOk1 writeOk2 : String → Bool)
    (stem : String) (tokens : Nat → String) (cs1 cs2 : List RawContour)
    (hinj : Function.Injective tokens) :
    ((detect_and_segment_stamps cv writeOk1 stem tokens cs1 ++
        detectLoop cv writeOk2 stem tokens cs2 (acceptedCount cv cs1)).map
      (fun r => r.path)).Nodup ∧
    (detect_and_segment_stamps cv (fun _ => true) stem tokens cs1).length =
      acceptedCount cv cs1 := by
  constructor
  · rw [List.map_append]
    refine List.Nodup.append
      (detectLoop_paths_nodup cv writeOk1 stem tokens hinj cs1 0)
      (detectLoop_paths_nodup cv writeOk2 stem tokens hinj cs2 _) ?_
    intro a ha1 ha2
    obtain ⟨r1, hr1, hp1⟩ := List.mem_map.mp ha1
    obtain ⟨r2, hr2, hp2⟩ := List.mem_map.mp ha2
    obtain ⟨j1, hj1a, hj1b, hj1c⟩ :=
      detectLoop_path_is_token cv writeOk1 stem tokens cs1 0 r1 hr1
    obtain ⟨j2, hj2a, hj2b, hj2c⟩ :=
      detectLoop_path_is_token cv writeOk2 stem tokens cs2 _ r2 hr2
    have heq : tokens j1 = tokens j2 :=
      savePath_injective stem _ _ (by rw [← hj1c, ← hj2c, hp1, hp2])
    have := hinj heq
    omega
  · exact detectLoop_length_allOk cv stem tokens cs1 0

theorem tokEx_injective : Function.Injective tokEx := by
  intro a b h
  have := congrArg (fun s => s.data.length) h
  simpa [tokEx] using this

theorem storage_paths_distinct_witness :
    Function.Injective tokEx ∧
    ((detect_and_segment_stamps cvEx (fun _ => true) "sheet2" tokEx
          [squareContour] ++
        detectLoop cvEx (fun _ => true) "sheet2" tokEx [squareContour]
          (acceptedCount cvEx [squareContour])).map
      (fun r => r.path)).Nodup ∧
    (detect_and_segment_stamps cvEx (fun _ => true) "sheet2" tokEx
        [squareContour]).length = acceptedCount cvEx [squareContour] :=
  ⟨tokEx_injective,
    storage_paths_distinct cvEx (fun _ => true) (fun _ => true) "sheet2" tokEx
      [squareContour] [squareContour] tokEx_injective⟩

/-- Claim C8: inserting a record whose `detected_stamp_image_path` already
exists in the catalog violates the UNIQUE constraint, so `add_stamp_record`
returns `None` and the catalog — in particular the record already stored
under that path — is unchanged. -/
theorem duplicate_path_insert_rejected (db : StampsDB) (d : StampData)
    (p : String) (hp : d.detected_stamp_image_path = some p)
    (hdup : ∃ r ∈ db.rows, r.detected_stamp_image_path = p) :
    add_stamp_record db d = (Option.none, db) := by
  have hany : db.rows.any (fun r => r.detected_stamp_image_path == p) = true := by
    obtain ⟨r, hr, hpath⟩ := hdup
    exact List.any_eq_true.mpr ⟨r, hr, by simp [hpath]⟩
  simp [add_stamp_record, hp, hany]

theorem duplicate_path_insert_rejected_witness :
    (({ detected_stamp_image_path := some "p" } : StampData).detected_stamp_image_path
        = some "p") ∧
    (∃ r ∈ dbEx.rows, r.detected_stamp_image_path = "p") ∧
    add_stamp_record dbEx { detected_stamp_image_path := some "p" } =
      (Option.none, dbEx) :=
  ⟨rfl, by decide,
    duplicate_path_insert_rejected dbEx { detected_stamp_image_path := some "p" }
      "p" rfl (by decide)⟩

/-- Claim C9: when the input dictionary lacks the
`detected_stamp_image_path` key, `add_stamp_record` returns `None` before
touching the database, leaving the catalog unchanged. -/
theorem missing_path_no_insert (db : StampsDB) (d : StampData)
    (hp : d.detected_stamp_image_path = Option.none) :
    add_stamp_record db d = (Option.none, db) := by
  simp [add_stamp_record, hp]

theorem missing_path_no_insert_witness :
    (({} : StampData).detected_stamp_image_path = Option.none) ∧
    add_stamp_record ⟨[], 1⟩ {} = (Option.none, ⟨[], 1⟩) :=
  ⟨rfl, missing_path_no_insert ⟨[], 1⟩ {} rfl⟩

/-- Claim C10 (amended): when the fetched row's `source_urls` text is
non-empty, the returned `source_urls` value is the result of `json.loads`
on the text when it parses — a list exactly when the text is a JSON array,
but a valid non-array JSON text (e.g. a JSON integer) is returned as that
non-list value — and the empty list (without raising) when parsing fails. -/
theorem source_urls_parse_behavior (db : StampsDB) (p s : String)
    (row : StampRow)
    (hrow : db.rows.find? (fun r => r.detected_stamp_image_path == p) = some row)
    (hs : row.source_urls = some s) (hne : s ≠ "") :
    (get_stamp_by_image_path db p).map (fun rec => rec.source_urls) =
      some ((json_loads s).getD (PyVal.list [])) := by
  simp only [get_stamp_by_image_path, hrow, hs, Option.map_some]
  rw [if_neg hne]
  cases hj : json_loads s <;> simp [hj]

theorem source_urls_parse_behavior_witness :
    (dbJ.rows.find? (fun r => r.detected_stamp_image_path == "r") = some rowJ) ∧
    (rowJ.source_urls = some "notjson") ∧ ("notjson" : String) ≠ "" ∧
    (get_stamp_by_image_path dbJ "r").map (fun rec => rec.source_urls) =
      some ((json_loads "notjson").getD (PyVal.list [])) :=
  ⟨by decide, rfl, by decide,
    source_urls_parse_behavior dbJ "r" "notjson" rowJ (by decide) rfl (by decide)⟩

/-- Claim C10, counterexample to the claim as stated: a record stored with
`source_urls` text `"5"` (reachable, since a string-valued `source_urls` is
stored verbatim by `add_stamp_record`) is valid JSON but not an array, so
`get_stamp_by_image_path` returns the parsed integer `5`, not a list. -/
theorem source_urls_nonlist_counterexample :
    (get_stamp_by_image_path
        (add_stamp_record ⟨[], 1⟩
          { detected_stamp_image_path := some "q",
            source_urls := some (.str "5") }).2 "q").map
      (fun rec => rec.source_urls) = some (PyVal.int 5) ∧
    PyVal.isPyList (PyVal.int 5) = false := by
  constructor
  · decide
  · rfl

end StampIt
